import Mathlib

/-!
Shallow embedding of the sliding-puzzle repository
(`backend/models/board.py`, `backend/engine/gameplay/game.py` and the
reference solver `private/reference/solver.py`) together with proofs of
the specification claims.

Conventions of the embedding:
* Python lists become `List Nat`; reads `l[i]` become `l.getD i 0`
  (respectively `l.getD i false` for the frozen `bytearray`), writes
  `l[i] = v` become `l.set i v`.  All call sites keep indices in
  range, where the source guards them we embed the same guards.
* Python exceptions become an `Err` value.  Stateful routines thread
  the mutable solver state explicitly and return
  `Except (Err × state) (state × moves)`: an error carries the state
  as mutated at the moment of the raise, matching Python's shared
  mutable objects.
* `for` / `while` loops with a structural bound become structural
  recursion on that bound (a fuel argument equal to the source's
  iteration count, or the literal list of loop indices).
-/

namespace SlidingGame

/-- Embeds `Direction` from `backend/models/board.py`. -/
inductive Direction
  | up
  | down
  | left
  | right
deriving Repr, DecidableEq

/-- Python exception values raised by the code under study.  The
constructors carry the data interpolated into the exception message by
the source (`RuntimeError` with various messages, `KeyError`,
`ValueError`, `NotImplementedError`). -/
inductive Err
  | btoNoPath (bi tgt : Nat)
  | mtoStuck (v ti gi : Nat)
  | mtoMaxIter (v gi : Nat)
  | vbInNotch
  | last2RowExhausted (r last : Nat)
  | last2ColExhausted (c last : Nat)
  | keyError
  | valueError
  | notImplementedError
deriving Repr, DecidableEq

/-- Which exceptions the clause `except (RuntimeError, KeyError)` in
`_last2_row` / `_last2_col` catches: every `Err` except `ValueError`
and `NotImplementedError` models a `RuntimeError` or a `KeyError`. -/
def Err.caughtByLast2 : Err → Bool
  | .valueError => false
  | .notImplementedError => false
  | _ => true

/-- Embeds the `Board` dataclass from `backend/models/board.py`.  The
dataclass performs no validation, so the fields are unconstrained. -/
structure Board where
  size : Nat
  tiles : List (List Nat)
  blank_pos : Nat × Nat
deriving Repr, DecidableEq

/-- Embeds the tile read `board.tiles[r][c]` (`Board.get_tile`). -/
def Board.getTile (b : Board) (r c : Nat) : Nat :=
  (b.tiles.getD r []).getD c 0

/-- Embeds the inner loop `for c, v in enumerate(row): if v == 0:
blank_pos = (r, c)` of `Board.from_flat`: scan one row, remembering
the position of the most recent zero. -/
def rowScan (r : Nat) : Nat → Nat × Nat → List Nat → Nat × Nat
  | _, bp, [] => bp
  | c, bp, v :: rest => rowScan r (c + 1) (if v = 0 then (r, c) else bp) rest

/-- Embeds `Board.from_flat`: raises `ValueError` when the flat list
has the wrong length, otherwise chops the list into rows and records
the position of the last zero scanned (initially `(0, 0)`). -/
def Board.from_flat (size : Nat) (flat : List Nat) : Except Err Board :=
  if flat.length ≠ size * size then .error .valueError
  else
    .ok (Board.mk size
      ((List.range size).map (fun r => (flat.drop (r * size)).take size))
      ((List.range size).foldl
        (fun bp r => rowScan r 0 bp ((flat.drop (r * size)).take size)) (0, 0)))

/-- Embeds `Board.is_solved`: every cell before the last must hold the
running counter `r*size + c + 1` and the last cell must hold the
blank.  The Python loop returns at cell `(size-1, size-1)` and falls
through to `True` when `size = 0`. -/
def Board.is_solved (b : Board) : Bool :=
  if b.size = 0 then true
  else
    ((List.range (b.size * b.size - 1)).all fun i =>
        b.getTile (i / b.size) (i % b.size) == i + 1)
      && (b.getTile (b.size - 1) (b.size - 1) == 0)

/-- Embeds the offset table of `GamePlay.move`: the direction names
the tile that slides, so `UP` selects the tile below the blank. -/
def moveOffset (d : Direction) : Int × Int :=
  match d with
  | .up => (1, 0)
  | .down => (-1, 0)
  | .left => (0, 1)
  | .right => (0, -1)

/-- Embeds the write `tiles[r][c] = v`. -/
def setTile (ts : List (List Nat)) (r c v : Nat) : List (List Nat) :=
  ts.set r ((ts.getD r []).set c v)

/-- Embeds `GamePlay._swap`: exchange the blank cell with `t` and move
the blank cursor there. -/
def gameSwap (b : Board) (t : Nat × Nat) : Board :=
  let br := b.blank_pos.1
  let bc := b.blank_pos.2
  let bv := b.getTile br bc
  let tv := b.getTile t.1 t.2
  Board.mk b.size (setTile (setTile b.tiles br bc tv) t.1 t.2 bv) t

/-- Embeds `GamePlay.move`: compute the cell of the sliding tile from
the offset table, reject it when out of bounds (returning `false` and
leaving the board untouched), otherwise swap it with the blank.  The
move counter kept in `GameState` is outside the board model. -/
def GamePlay.move (b : Board) (d : Direction) : Bool × Board :=
  let off := moveOffset d
  let tr : Int := (b.blank_pos.1 : Int) + off.1
  let tc : Int := (b.blank_pos.2 : Int) + off.2
  if 0 ≤ tr ∧ tr < (b.size : Int) ∧ 0 ≤ tc ∧ tc < (b.size : Int) then
    (true, gameSwap b (tr.toNat, tc.toNat))
  else (false, b)

/-- Embeds the solver's flat board wrapper `_B`: side `n`, cell→value
list `g`, value→position list `p` and the blank cursor `bi`. -/
structure BSt where
  n : Nat
  g : List Nat
  p : List Nat
  bi : Nat
deriving Repr, DecidableEq

/-- Embeds `_B.__init__`: flatten the board row-major into `g`, record
each value's cell in `p` (later cells overwrite earlier ones, exactly
as the Python loop does) and set the cursor from `blank_pos`. -/
def mkB (board : Board) : BSt :=
  let n := board.size
  let nn := n * n
  BSt.mk n
    ((List.range nn).map fun i => board.getTile (i / n) (i % n))
    ((List.range nn).foldl
      (fun p i => p.set (board.getTile (i / n) (i % n)) i)
      (List.replicate nn 0))
    (board.blank_pos.1 * n + board.blank_pos.2)

/-- Embeds the direction dictionary `_B._dm` built as
`{n: UP, -n: DOWN, 1: LEFT, -1: RIGHT}`.  Later keys overwrite earlier
duplicates, so the lookup checks in reverse insertion order (this only
matters for the degenerate sides `n ≤ 1`). -/
def dmLookup (n : Nat) (delta : Int) : Option Direction :=
  if delta = -1 then some .right
  else if delta = 1 then some .left
  else if delta = -(n : Int) then some .down
  else if delta = (n : Int) then some .up
  else none

/-- Embeds `_B.sw`: emit the direction for the jump `ni - bi` (a
missing key is Python's `KeyError`, raised before any mutation), then
swap the blank with cell `ni`, updating `g`, `p` and the cursor in the
source's assignment order. -/
def sw (st : BSt) (ni : Nat) : Except Err (BSt × Direction) :=
  match dmLookup st.n ((ni : Int) - (st.bi : Int)) with
  | none => .error .keyError
  | some d =>
      let tv := st.g.getD ni 0
      .ok (BSt.mk st.n ((st.g.set st.bi tv).set ni 0)
        ((st.p.set tv st.bi).set 0 ni) ni, d)

/-- Result type of the stateful solver routines: an error carries the
state (`_B` wrapper and frozen mask) as mutated when the exception was
raised; success carries the final state and the moves appended to the
output list. -/
abbrev SR := Except (Err × BSt × List Bool) (BSt × List Bool × List Direction)

/-- Sequencing of two stateful steps, concatenating their emitted
moves (the Python routines share one output list `o`). -/
def andThen (x : SR) (f : BSt → List Bool → SR) : SR :=
  match x with
  | .error e => .error e
  | .ok (st, fz, mv) =>
      match f st fz with
      | .error e => .error e
      | .ok (st2, fz2, mv2) => .ok (st2, fz2, mv ++ mv2)

/-- One `b.sw(ni, o)` call as a stateful step. -/
def swS (ni : Nat) (st : BSt) (fz : List Bool) : SR :=
  match sw st ni with
  | .error e => .error (e, st, fz)
  | .ok (st2, d) => .ok (st2, fz, [d])

/-- A sequence of `sw` calls, one per cell (`for cell in path: sw(cell, o)`). -/
def swSeq (cells : List Nat) (st : BSt) (fz : List Bool) : SR :=
  match cells with
  | [] => .ok (st, fz, [])
  | c :: rest => andThen (swS c st fz) (swSeq rest)

/-- Embeds the adjacency table `_B.adj` for one cell: neighbours in
the source's order up, down, left, right, omitting off-board ones. -/
def adjList (n i : Nat) : List Nat :=
  let r := i / n
  let c := i % n
  (if 0 < r then [i - n] else []) ++ (if r < n - 1 then [i + n] else [])
    ++ (if 0 < c then [i - 1] else []) ++ (if c < n - 1 then [i + 1] else [])

/-- Cells traversed by one horizontal `while c != tc` segment of
`_lpath` in row `r`, from column `c` (excluded) to `tc` (included),
stepping by `sign (tc - c)`. -/
def cellsH (n r c tc : Nat) : List Nat :=
  if c ≤ tc then (List.range' (c + 1) (tc - c)).map (fun j => r * n + j)
  else ((List.range' tc (c - tc)).map (fun j => r * n + j)).reverse

/-- Cells traversed by one vertical `while r != tr` segment of
`_lpath` in column `c`, from row `r` (excluded) to `tr` (included). -/
def cellsV (n c r tr : Nat) : List Nat :=
  if r ≤ tr then (List.range' (r + 1) (tr - r)).map (fun i => i * n + c)
  else ((List.range' tr (r - tr)).map (fun i => i * n + c)).reverse

/-- The frozen test applied to a whole candidate path: the source
walks the path cell by cell and returns `None` at the first frozen
cell, which succeeds exactly when no cell of the path is frozen. -/
def pathClear (fz : List Bool) (cells : List Nat) : Option (List Nat) :=
  if cells.any (fun cell => fz.getD cell false) then none else some cells

/-- Embeds `_lpath`: the two-segment L-shaped path from `bi` to `tgt`
(horizontal first when `h_first`), rejected if any traversed cell is
frozen. -/
def lpath (bi tgt n : Nat) (fz : List Bool) (hFirst : Bool) : Option (List Nat) :=
  let br := bi / n
  let bc := bi % n
  let tr := tgt / n
  let tc := tgt % n
  if hFirst then pathClear fz (cellsH n br bc tc ++ cellsV n tc br tr)
  else pathClear fz (cellsV n bc br tr ++ cellsH n tr bc tc)

/-- Embeds `_lpath3`: the four three-segment detours (go-low,
go-right, go-high, go-left), each scanned outward by increasing
offset, first clear path wins. -/
def lpath3 (bi tgt n : Nat) (fz : List Bool) : Option (List Nat) :=
  let br := bi / n
  let bc := bi % n
  let tr := tgt / n
  let tc := tgt % n
  match (List.range' (max br tr + 1) (n - (max br tr + 1))).findSome? (fun sr =>
      pathClear fz (cellsV n bc br sr ++ cellsH n sr bc tc ++ cellsV n tc sr tr)) with
  | some p => some p
  | none =>
  match (List.range' (max bc tc + 1) (n - (max bc tc + 1))).findSome? (fun sc =>
      pathClear fz (cellsH n br bc sc ++ cellsV n sc br tr ++ cellsH n tr sc tc)) with
  | some p => some p
  | none =>
  match ((List.range (min br tr)).reverse).findSome? (fun sr =>
      pathClear fz (cellsV n bc br sr ++ cellsH n sr bc tc ++ cellsV n tc sr tr)) with
  | some p => some p
  | none =>
  ((List.range (min bc tc)).reverse).findSome? (fun sc =>
      pathClear fz (cellsH n br bc sc ++ cellsV n sc br tr ++ cellsH n tr sc tc))

/-- The path search `_bto` performs from a cell `x`: L-path both
orders, then the three-segment detour. -/
def btoPlan (x tgt n : Nat) (fz : List Bool) : Option (List Nat) :=
  match lpath x tgt n fz true with
  | some p => some p
  | none =>
  match lpath x tgt n fz false with
  | some p => some p
  | none => lpath3 x tgt n fz

/-- Embeds `_bto`: move the blank to `tgt` avoiding frozen cells — the
L-path, then the 3-phase path, then the 1-step and 2-step escapes, and
`RuntimeError` when everything fails. -/
def bto (st : BSt) (tgt : Nat) (fz : List Bool) : SR :=
  if st.bi = tgt then .ok (st, fz, [])
  else
    match lpath st.bi tgt st.n fz true with
    | some p => swSeq p st fz
    | none =>
    match lpath st.bi tgt st.n fz false with
    | some p => swSeq p st fz
    | none =>
    match lpath3 st.bi tgt st.n fz with
    | some p => swSeq p st fz
    | none =>
    match (adjList st.n st.bi).findSome? (fun ne =>
        if fz.getD ne false then none
        else (btoPlan ne tgt st.n fz).map (fun p => (ne, p))) with
    | some (ne, p) => swSeq (ne :: p) st fz
    | none =>
    match (adjList st.n st.bi).findSome? (fun ne =>
        if fz.getD ne false then none
        else (adjList st.n ne).findSome? (fun ne2 =>
          if fz.getD ne2 false || ne2 == st.bi then none
          else (btoPlan ne2 tgt st.n fz).map (fun p => (ne, ne2, p)))) with
    | some (ne, ne2, p) => swSeq (ne :: ne2 :: p) st fz
    | none => .error (.btoNoPath st.bi tgt, st, fz)

/-- Frozen-mask read at an index computed in `Int` (`fz[ti + d]`).
Every call site first establishes `0 ≤ i < n*n`, as the source's index
arithmetic does. -/
def fzA (fz : List Bool) (i : Int) : Bool :=
  fz.getD i.toNat false

/-- Embeds the fast-path search of `_mto` (the "blank right behind the
tile" 4-step around maneuver): when `bi = ti - delta`, look for a
perpendicular corridor `c1, c2, c3` subject to the bounds, row/column
and frozen guards of the source; returns the corridor cells. -/
def aroundCand (st : BSt) (fz : List Bool) (delta : Int) (ti target : Nat) :
    Option (Nat × Nat × Nat) :=
  let n := st.n
  let nn := n * n
  let bi := st.bi
  if (bi : Int) = (ti : Int) - delta then
    if delta = 1 ∨ delta = -1 then
      if bi / n = ti / n then
        ([(n : Int), -(n : Int)]).findSome? fun perp =>
          let c1 : Int := (bi : Int) + perp
          if c1 < 0 ∨ (nn : Int) ≤ c1 then none
          else
            let c3 : Int := (target : Int) + perp
            if c3 < 0 ∨ (nn : Int) ≤ c3 then none
            else
              let c2 : Int := (ti : Int) + perp
              if fzA fz c1 || fzA fz c2 || fzA fz c3 then none
              else some (c1.toNat, c2.toNat, c3.toNat)
      else none
    else
      if bi % n = ti % n then
        ([(1 : Int), -1]).findSome? fun perp =>
          let c1 : Int := (bi : Int) + perp
          if c1 < 0 ∨ (nn : Int) ≤ c1 then none
          else if c1.toNat / n ≠ bi / n then none
          else
            let c3 : Int := (target : Int) + perp
            if c3 < 0 ∨ (nn : Int) ≤ c3 then none
            else
              let c2 : Int := (ti : Int) + perp
              if fzA fz c1 || fzA fz c2 || fzA fz c3 then none
              else some (c1.toNat, c2.toNat, c3.toNat)
      else none
  else none

/-- Embeds the body of `_mto`'s `for _ in range(4 * nn)` loop; the
fuel argument is the number of remaining iterations, and running out
of fuel is the `RuntimeError("_mto max iterations")` raised after the
loop.  Each iteration picks the advance direction (column gap first,
then row gap, then any unfrozen neighbour), ghost-freezes the tile's
cell, routes the blank behind the tile (around maneuver or full
`_bto`), unfreezes and slides. -/
def mtoLoop (v gi : Nat) : Nat → BSt → List Bool → SR
  | 0, st, fz => .error (.mtoMaxIter v gi, st, fz)
  | Nat.succ fuel, st, fz =>
    let n := st.n
    let ti := st.p.getD v 0
    if ti = gi then .ok (st, fz, [])
    else
      let tr := ti / n
      let tc := ti % n
      let gr := gi / n
      let gc := gi % n
      let delta1 : Int :=
        if tc ≠ gc then
          (let d : Int := if tc < gc then 1 else -1
           if fzA fz ((ti : Int) + d) then 0 else d)
        else 0
      let delta2 : Int :=
        if delta1 = 0 ∧ tr ≠ gr then
          (let d : Int := if tr < gr then (n : Int) else -(n : Int)
           if fzA fz ((ti : Int) + d) then 0 else d)
        else delta1
      let delta3 : Int :=
        if delta2 = 0 then
          match (adjList n ti).find? (fun ne => !(fz.getD ne false)) with
          | some ne => (ne : Int) - (ti : Int)
          | none => 0
        else delta2
      if delta3 = 0 then .error (.mtoStuck v ti gi, st, fz)
      else
        let target := ((ti : Int) + delta3).toNat
        let fz1 := fz.set ti true
        match aroundCand st fz1 delta3 ti target with
        | some (c1, c2, c3) =>
          andThen (andThen (swSeq [c1, c2, c3, target] st fz1)
              (fun st2 fz2 => swS ti st2 (fz2.set ti false)))
            (mtoLoop v gi fuel)
        | none =>
          andThen (andThen (bto st target fz1)
              (fun st2 fz2 => swS ti st2 (fz2.set ti false)))
            (mtoLoop v gi fuel)

/-- Embeds `_mto`: push tile `v` to cell `gi`, bounded by `4·n²`
iterations. -/
def mto (v gi : Nat) (st : BSt) (fz : List Bool) : SR :=
  mtoLoop v gi (4 * (st.n * st.n)) st fz

/-- Embeds the `try:` block of one `_last2_row` attempt: park `vb` at
the bottom of the last column (unless already staged or parked), stage
`va` at the corner and freeze it, detect `vb` drifted into the notch
(`RuntimeError`), stage `vb` below the corner with the notch frozen,
route the blank and perform the 3-swap clockwise rotation. -/
def last2RowBody (r last va vb : Nat) (st : BSt) (fz : List Bool) : SR :=
  let n := st.n
  let stg_a := r * n + last
  let stg_b := (r + 1) * n + last
  let bl_stg := (r + 1) * n + last - 1
  let notch := r * n + last - 1
  let park := (n - 1) * n + last
  andThen
    (if st.p.getD vb 0 ≠ stg_b ∧ st.p.getD vb 0 ≠ park then mto vb park st fz
     else .ok (st, fz, []))
    (fun st1 fz1 =>
      andThen (mto va stg_a st1 fz1) (fun st2 fz2 =>
        let fz3 := fz2.set stg_a true
        if st2.p.getD vb 0 = notch then .error (.vbInNotch, st2, fz3)
        else
          andThen (mto vb stg_b st2 (fz3.set notch true)) (fun st3 fz4 =>
            let fz5 := (fz4.set notch false).set stg_b true
            andThen (bto st3 bl_stg fz5) (fun st4 fz6 =>
              swSeq [notch, stg_a, stg_b] st4 fz6))))

/-- Embeds the `for _attempt in range(4)` loop of `_last2_row`, the
attempt list holding the remaining values of `_attempt`.  Python's
`snap`/`fz_snap` are the state this function receives for the current
attempt: on a caught exception or a failed placement check the
continuation runs from exactly that state (`b.restore(snap)`,
`fz[:] = fz_snap`), discarding whatever the attempt mutated, and the
second tile is pushed further away before the next attempt.
Exhausting the list is the `RuntimeError("_last2_row: exhausted
retries")`. -/
def last2RowLoop (r last va vb : Nat) : List Nat → BSt → List Bool → SR
  | [], st, fz => .error (.last2RowExhausted r last, st, fz)
  | a :: rest, st, fz =>
    let n := st.n
    let gi_a := r * n + last - 1
    let gi_b := r * n + last
    let safe_r := min (n - 1) (r + 2 + a)
    let safe_c := min (last - a % 2) (n - 1)
    match last2RowBody r last va vb st fz with
    | .ok (st2, _fz2, trial) =>
        if st2.p.getD va 0 = gi_a ∧ st2.p.getD vb 0 = gi_b then .ok (st2, fz, trial)
        else
          match mto vb (safe_r * n + safe_c) st fz with
          | .error e => .error e
          | .ok (st3, fz3, mv) =>
            match last2RowLoop r last va vb rest st3 fz3 with
            | .error e => .error e
            | .ok (st4, fz4, mv2) => .ok (st4, fz4, mv ++ mv2)
    | .error (e, st2, fz2) =>
        if e.caughtByLast2 then
          match mto vb (safe_r * n + safe_c) st fz with
          | .error e2 => .error e2
          | .ok (st3, fz3, mv) =>
            match last2RowLoop r last va vb rest st3 fz3 with
            | .error e2 => .error e2
            | .ok (st4, fz4, mv2) => .ok (st4, fz4, mv ++ mv2)
        else .error (e, st2, fz2)

/-- Embeds `_last2_row`: the idempotent short-circuit, then four
attempts. -/
def last2Row (r last va vb : Nat) (st : BSt) (fz : List Bool) : SR :=
  let n := st.n
  let gi_a := r * n + last - 1
  let gi_b := r * n + last
  if st.p.getD va 0 = gi_a ∧ st.p.getD vb 0 = gi_b then .ok (st, fz, [])
  else last2RowLoop r last va vb [0, 1, 2, 3] st fz

/-- Embeds the `try:` block of one `_last2_col` attempt (mirror of the
row version: park at the rightmost cell of the last row, stage at the
bottom of the column and to its right). -/
def last2ColBody (c last va vb : Nat) (st : BSt) (fz : List Bool) : SR :=
  let n := st.n
  let stg_a := last * n + c
  let stg_b := last * n + c + 1
  let bl_stg := (last - 1) * n + c + 1
  let notch := (last - 1) * n + c
  let park := last * n + (n - 1)
  andThen
    (if st.p.getD vb 0 ≠ stg_b ∧ st.p.getD vb 0 ≠ park then mto vb park st fz
     else .ok (st, fz, []))
    (fun st1 fz1 =>
      andThen (mto va stg_a st1 fz1) (fun st2 fz2 =>
        let fz3 := fz2.set stg_a true
        if st2.p.getD vb 0 = notch then .error (.vbInNotch, st2, fz3)
        else
          andThen (mto vb stg_b st2 (fz3.set notch true)) (fun st3 fz4 =>
            let fz5 := (fz4.set notch false).set stg_b true
            andThen (bto st3 bl_stg fz5) (fun st4 fz6 =>
              swSeq [notch, stg_a, stg_b] st4 fz6))))

/-- Embeds the attempt loop of `_last2_col` (see `last2RowLoop`). -/
def last2ColLoop (c last va vb : Nat) : List Nat → BSt → List Bool → SR
  | [], st, fz => .error (.last2ColExhausted c last, st, fz)
  | a :: rest, st, fz =>
    let n := st.n
    let gi_a := (last - 1) * n + c
    let gi_b := last * n + c
    let safe_r := last
    let safe_c := min (n - 1) (c + 2 + a)
    match last2ColBody c last va vb st fz with
    | .ok (st2, _fz2, trial) =>
        if st2.p.getD va 0 = gi_a ∧ st2.p.getD vb 0 = gi_b then .ok (st2, fz, trial)
        else
          match mto vb (safe_r * n + safe_c) st fz with
          | .error e => .error e
          | .ok (st3, fz3, mv) =>
            match last2ColLoop c last va vb rest st3 fz3 with
            | .error e => .error e
            | .ok (st4, fz4, mv2) => .ok (st4, fz4, mv ++ mv2)
    | .error (e, st2, fz2) =>
        if e.caughtByLast2 then
          match mto vb (safe_r * n + safe_c) st fz with
          | .error e2 => .error e2
          | .ok (st3, fz3, mv) =>
            match last2ColLoop c last va vb rest st3 fz3 with
            | .error e2 => .error e2
            | .ok (st4, fz4, mv2) => .ok (st4, fz4, mv ++ mv2)
        else .error (e, st2, fz2)

/-- Embeds `_last2_col`. -/
def last2Col (c last va vb : Nat) (st : BSt) (fz : List Bool) : SR :=
  let n := st.n
  let gi_a := (last - 1) * n + c
  let gi_b := last * n + c
  if st.p.getD va 0 = gi_a ∧ st.p.getD vb 0 = gi_b then .ok (st, fz, [])
  else last2ColLoop c last va vb [0, 1, 2, 3] st fz

/-- Embeds the `for c in range(off, last - 1)` loop of `_row`: push
each tile to its cell and freeze it. -/
def rowLoop (base : Nat) : List Nat → BSt → List Bool → SR
  | [], st, fz => .ok (st, fz, [])
  | c :: rest, st, fz =>
    match mto (base + c + 1) (base + c) st fz with
    | .error e => .error e
    | .ok (st2, fz2, mv) =>
      match rowLoop base rest st2 (fz2.set (base + c) true) with
      | .error e => .error e
      | .ok (st3, fz3, mv2) => .ok (st3, fz3, mv ++ mv2)

/-- Embeds `_row`: place row `off` of the current ring, the last two
tiles through the hook maneuver, then freeze their cells. -/
def rowPlace (off : Nat) (st : BSt) (fz : List Bool) : SR :=
  let n := st.n
  let r := off
  let last := n - 1
  let base := r * n
  match rowLoop base (List.range' off (last - 1 - off)) st fz with
  | .error e => .error e
  | .ok (st1, fz1, mv) =>
    match last2Row r last (base + last) (base + last + 1) st1 fz1 with
    | .error e => .error e
    | .ok (st2, fz2, mv2) =>
      .ok (st2, (fz2.set (base + last - 1) true).set (base + last) true, mv ++ mv2)

/-- Embeds the `for r in range(off + 1, last - 1)` loop of `_col`. -/
def colLoop (n c : Nat) : List Nat → BSt → List Bool → SR
  | [], st, fz => .ok (st, fz, [])
  | r :: rest, st, fz =>
    match mto (r * n + c + 1) (r * n + c) st fz with
    | .error e => .error e
    | .ok (st2, fz2, mv) =>
      match colLoop n c rest st2 (fz2.set (r * n + c) true) with
      | .error e => .error e
      | .ok (st3, fz3, mv2) => .ok (st3, fz3, mv ++ mv2)

/-- Embeds `_col`: place column `off` below the already-solved row. -/
def colPlace (off : Nat) (st : BSt) (fz : List Bool) : SR :=
  let n := st.n
  let c := off
  let last := n - 1
  match colLoop n c (List.range' (off + 1) (last - 1 - (off + 1))) st fz with
  | .error e => .error e
  | .ok (st1, fz1, mv) =>
    match last2Col c last ((last - 1) * n + c + 1) (last * n + c + 1) st1 fz1 with
    | .error e => .error e
    | .ok (st2, fz2, mv2) =>
      .ok (st2, (fz2.set ((last - 1) * n + c) true).set (last * n + c) true, mv ++ mv2)

/-- Embeds the `for _ in range(2)` rotation loop of `_solve_2x2`: the
goal test runs at the top of each iteration; when both iterations are
spent the function simply returns. -/
def rot2Rounds (tl tr bl br : Nat) : Nat → BSt → List Bool → SR
  | 0, st, fz => .ok (st, fz, [])
  | Nat.succ k, st, fz =>
    if st.g.getD tl 0 = tl + 1 ∧ st.g.getD tr 0 = tr + 1 ∧ st.g.getD bl 0 = bl + 1 then
      .ok (st, fz, [])
    else
      match swSeq [bl, tl, tr, br] st fz with
      | .error e => .error e
      | .ok (st2, fz2, mv) =>
        match rot2Rounds tl tr bl br k st2 fz2 with
        | .error e => .error e
        | .ok (st3, fz3, mv2) => .ok (st3, fz3, mv ++ mv2)

/-- Embeds `_solve_2x2`: immediate return when the block already
matches the goal, otherwise route the blank to the bottom-right cell
of the block and run at most two clockwise quarter-rotations. -/
def solve2x2 (off : Nat) (st : BSt) (fz : List Bool) : SR :=
  let n := st.n
  let tl := off * n + off
  let tr := tl + 1
  let bl := tl + n
  let br := bl + 1
  if st.g.getD tl 0 = tl + 1 ∧ st.g.getD tr 0 = tr + 1 ∧ st.g.getD bl 0 = bl + 1 then
    .ok (st, fz, [])
  else
    match bto st br fz with
    | .error e => .error e
    | .ok (st1, fz1, mv) =>
      match rot2Rounds tl tr bl br 2 st1 fz1 with
      | .error e => .error e
      | .ok (st2, fz2, mv2) => .ok (st2, fz2, mv ++ mv2)

/-- Embeds the ring loop of `_solve` (`while n - off > 2` then the
final `if n - off == 2`).  The fuel starts at `n`, strictly more than
the number of loop iterations, so the fuel-exhausted branch is
unreachable. -/
def solveRings : Nat → Nat → BSt → List Bool → SR
  | 0, _, st, fz => .ok (st, fz, [])
  | Nat.succ fuel, off, st, fz =>
    if st.n - off > 2 then
      match rowPlace off st fz with
      | .error e => .error e
      | .ok (st1, fz1, mv1) =>
        match colPlace off st1 fz1 with
        | .error e => .error e
        | .ok (st2, fz2, mv2) =>
          match solveRings fuel (off + 1) st2 fz2 with
          | .error e => .error e
          | .ok (st3, fz3, mv3) => .ok (st3, fz3, mv1 ++ mv2 ++ mv3)
    else if st.n - off = 2 then solve2x2 off st fz
    else .ok (st, fz, [])

/-- Embeds `_solve`: fresh all-clear frozen mask, rings from offset 0. -/
def solveB (st : BSt) : SR :=
  solveRings st.n 0 st (List.replicate (st.n * st.n) false)

/-- Embeds `bisect.bisect_left(seen, v)` from the Python standard
library on the sorted lists maintained by `is_solvable`: the leftmost
insertion point, i.e. the length of the prefix of elements `< v`. -/
def bisect_left (seen : List Nat) (v : Nat) : Nat :=
  (seen.takeWhile (fun s => decide (s < v))).length

/-- Embeds `bisect.insort(seen, v)`: insert `v` keeping the list
sorted.  On `Nat` values inserting before or after equal elements
yields the same list, so Mathlib's ordered insert is exact. -/
def insort (seen : List Nat) (v : Nat) : List Nat :=
  List.orderedInsert (fun a b => a ≤ b) v seen

/-- Embeds the inversion-counting loop of `Solver.is_solvable`: for
each value, add the number of already-seen values `≥ v`
(`len(seen) - bisect_left(seen, v)`), then insert it. -/
def invLoop : List Nat → List Nat → Nat → Nat
  | [], _, inv => inv
  | v :: rest, seen, inv =>
      invLoop rest (insort seen v) (inv + (seen.length - bisect_left seen v))

/-- Embeds `Solver.is_solvable`: inversion parity of the flattened
tiles without the blank; for even sides the blank's row distance from
the bottom is added before taking parity. -/
def Solver.is_solvable (board : Board) : Bool :=
  let flat := (board.tiles.flatten).filter (fun v => v != 0)
  let inv := invLoop flat [] 0
  if board.size % 2 = 1 then inv % 2 == 0
  else (inv + (board.size - 1 - board.blank_pos.1)) % 2 == 0

/-- Embeds `Solver.solve`: empty sequence when solved or unsolvable,
otherwise run the orchestrator on the `_B` wrapper. -/
def Solver.solve (board : Board) : Except Err (List Direction) :=
  if board.is_solved then .ok []
  else if !(Solver.is_solvable board) then .ok []
  else
    match solveB (mkB board) with
    | .error (e, _, _) => .error e
    | .ok (_, _, mv) => .ok mv

/-- Embeds `Solver.hint`: `None` when solved; run `solve` catching
only `NotImplementedError`; first move of a non-empty result. -/
def Solver.hint (board : Board) : Except Err (Option Direction) :=
  if board.is_solved then .ok none
  else
    match Solver.solve board with
    | .error .notImplementedError => .ok none
    | .error e => .error e
    | .ok mv => .ok mv.head?

/-! ## Specification-side definitions used by the claims -/

/-- Index of the last zero of a list, if any (specification-side
description of the scan performed by `Board.from_flat`). -/
def lastZeroIdx : List Nat → Option Nat
  | [] => none
  | v :: rest =>
    match lastZeroIdx rest with
    | some k => some (k + 1)
    | none => if v = 0 then some 0 else none

/-- Specification-side inversion count: the number of pairs `(i, j)`
with `i < j` and `value[i] > value[j]`, counted head-first. -/
def specInversions : List Nat → Nat
  | [] => 0
  | x :: xs => xs.countP (fun y => decide (y < x)) + specInversions xs

/-- Specification-side solvability predicate, exactly as the claim
states it: inversion parity of the row-major flattening with the blank
removed; for even `N` the blank row's distance from the bottom
(`N - 1 - blank_row`) is added first. -/
def specSolvable (b : Board) : Bool :=
  let inv := specInversions ((b.tiles.flatten).filter (fun v => v != 0))
  if b.size % 2 = 1 then inv % 2 == 0
  else (inv + (b.size - 1 - b.blank_pos.1)) % 2 == 0

/-- Pair count with `≥` in place of `>`: what the
`len(seen) - bisect_left(seen, v)` loop accumulates. -/
def invGe : List Nat → Nat
  | [] => 0
  | x :: xs => xs.countP (fun y => decide (y ≤ x)) + invGe xs

/-- Cross count: for each element of `l`, how many elements of `seen`
are `≥` it. -/
def countGeAll (seen l : List Nat) : Nat :=
  (l.map (fun v => seen.countP (fun s => decide (v ≤ s)))).sum

/-- Invariant of the `_B` wrapper: list sizes, cursor in range, the
cursor's cell holds the blank, all cell values are in range, and the
cell→value and value→position lists are exact inverses
(`p[g[i]] = i` for every cell `i`). -/
def BInv (st : BSt) : Prop :=
  st.g.length = st.n * st.n ∧ st.p.length = st.n * st.n ∧ st.bi < st.n * st.n ∧
  st.g.getD st.bi 0 = 0 ∧
  (∀ i, i < st.n * st.n → st.g.getD i 0 < st.n * st.n) ∧
  (∀ i, i < st.n * st.n → st.p.getD (st.g.getD i 0) 0 = i)

/-- The retry tail of one failed `_last2_row` attempt: push `vb`
further away (appending those moves to the real output) and run the
remaining attempts.  Mirrors the code after the `try/except`. -/
def last2RowRetry (r last va vb a : Nat) (rest : List Nat) (st : BSt)
    (fz : List Bool) : SR :=
  let n := st.n
  let safe_r := min (n - 1) (r + 2 + a)
  let safe_c := min (last - a % 2) (n - 1)
  match mto vb (safe_r * n + safe_c) st fz with
  | .error e => .error e
  | .ok (st3, fz3, mv) =>
    match last2RowLoop r last va vb rest st3 fz3 with
    | .error e => .error e
    | .ok (st4, fz4, mv2) => .ok (st4, fz4, mv ++ mv2)

/-- Does an error message identify the pushed tile's value and its
target cell, in the sense of the claim?  Only the two `_mto`
diagnostics carry them. -/
def mentionsTileTarget (e : Err) (v gi : Nat) : Bool :=
  match e with
  | .mtoStuck v2 _ gi2 => v2 == v && gi2 == gi
  | .mtoMaxIter v2 gi2 => v2 == v && gi2 == gi
  | _ => false

/-! ## Generic helper lemmas about list reads and writes -/

theorem getD_set_self {α : Type} (l : List α) (i : Nat) (v d : α)
    (h : i < l.length) : (l.set i v).getD i d = v := by
  simp [List.getD_eq_getElem?_getD, List.getElem?_set_self, h]

theorem getD_set_other {α : Type} (l : List α) (i j : Nat) (v d : α)
    (h : i ≠ j) : (l.set i v).getD j d = l.getD j d := by
  simp [List.getD_eq_getElem?_getD, List.getElem?_set_ne h]

/-! ## C4: solve on solved and on unsolvable boards -/

/-- C4 — for every board that is already solved, `solve` returns the
empty move sequence; and for every board on which `is_solvable`
returns `false`, `solve` returns the empty move sequence without
raising any error. -/
theorem solve_empty_on_solved_or_unsolvable (b : Board) :
    (b.is_solved = true → Solver.solve b = .ok []) ∧
    (Solver.is_solvable b = false → Solver.solve b = .ok []) := by
  constructor
  · intro h
    simp [Solver.solve, h]
  · intro h
    by_cases hs : b.is_solved
    · simp [Solver.solve, hs]
    · simp [Solver.solve, hs, h]

/-- Witness for C4 at concrete boards: the solved 2×2 board and an
unsolvable 2×2 board (two tiles transposed). -/
theorem solve_empty_on_solved_or_unsolvable_witness :
    Solver.solve (Board.mk 2 [[1, 2], [3, 0]] (1, 1)) = .ok [] ∧
    Solver.solve (Board.mk 2 [[2, 1], [3, 0]] (1, 1)) = .ok [] := by
  exact ⟨(solve_empty_on_solved_or_unsolvable _).1 (by decide),
    (solve_empty_on_solved_or_unsolvable _).2 (by decide)⟩

/-! ## C10: Board.from_flat -/

theorem lastZeroIdx_eq_none_iff (l : List Nat) :
    lastZeroIdx l = none ↔ ∀ v ∈ l, v ≠ 0 := by
  induction l with
  | nil => simp [lastZeroIdx]
  | cons v rest ih =>
    simp only [lastZeroIdx]
    cases h : lastZeroIdx rest with
    | some k =>
      constructor
      · intro hz
        simp at hz
      · intro hall
        have : lastZeroIdx rest = none :=
          ih.mpr (fun x hx => hall x (List.mem_cons_of_mem v hx))
        rw [this] at h
        simp at h
    | none =>
      constructor
      · intro hz
        intro x hx
        rcases List.mem_cons.mp hx with rfl | hx2
        · intro hx0
          simp [hx0] at hz
        · exact (ih.mp h) x hx2
      · intro hall
        have : v ≠ 0 := hall v (by simp)
        simp [this]

theorem lastZeroIdx_lt_length (l : List Nat) (i : Nat)
    (h : lastZeroIdx l = some i) : i < l.length := by
  induction l generalizing i with
  | nil => simp [lastZeroIdx] at h
  | cons v rest ih =>
    simp only [lastZeroIdx] at h
    cases h2 : lastZeroIdx rest with
    | some k =>
      rw [h2] at h
      injection h with h
      subst h
      exact Nat.succ_lt_succ (ih k h2)
    | none =>
      rw [h2] at h
      by_cases hv : v = 0
      · simp [hv] at h
        subst h
        simp
      · simp [hv] at h

theorem getD_eq_getElem {α : Type} (l : List α) (i : Nat) (d : α)
    (h : i < l.length) : l.getD i d = l[i] := by
  simp [List.getD_eq_getElem?_getD, List.getElem?_eq_getElem h]

theorem lastZeroIdx_eq_some (l : List Nat) (i : Nat)
    (h1 : i < l.length) (h2 : l.getD i 0 = 0)
    (h3 : ∀ j, i < j → j < l.length → l.getD j 0 ≠ 0) :
    lastZeroIdx l = some i := by
  induction l generalizing i with
  | nil => simp at h1
  | cons v rest ih =>
    cases i with
    | zero =>
      have hv : v = 0 := by simpa using h2
      have hrest : lastZeroIdx rest = none := by
        rw [lastZeroIdx_eq_none_iff]
        intro x hx
        obtain ⟨j, hj, hget⟩ := List.getElem_of_mem hx
        intro hx0
        exact h3 (j + 1) (Nat.succ_pos j) (by simpa using Nat.succ_lt_succ hj)
          (by rw [List.getD_cons_succ, getD_eq_getElem rest j 0 hj, hget, hx0])
      simp [lastZeroIdx, hrest, hv]
    | succ i' =>
      have hrest : lastZeroIdx rest = some i' := by
        apply ih
        · simpa using Nat.lt_of_succ_lt_succ h1
        · simpa using h2
        · intro j hj hjl
          have := h3 (j + 1) (Nat.succ_lt_succ hj) (by simpa using Nat.succ_lt_succ hjl)
          simpa using this
      simp [lastZeroIdx, hrest]

theorem lastZeroIdx_append_some (xs ys : List Nat) (k : Nat)
    (h : lastZeroIdx ys = some k) :
    lastZeroIdx (xs ++ ys) = some (xs.length + k) := by
  induction xs with
  | nil => simpa using h
  | cons x xs ih =>
    have step : lastZeroIdx (x :: (xs ++ ys)) =
        match lastZeroIdx (xs ++ ys) with
        | some k2 => some (k2 + 1)
        | none => if x = 0 then some 0 else none := rfl
    rw [List.cons_append, step, ih]
    simp [List.length_cons, Nat.add_right_comm]

theorem lastZeroIdx_append_none (xs ys : List Nat)
    (h : lastZeroIdx ys = none) :
    lastZeroIdx (xs ++ ys) = lastZeroIdx xs := by
  induction xs with
  | nil => simpa using h
  | cons x xs ih =>
    have step : lastZeroIdx (x :: (xs ++ ys)) =
        match lastZeroIdx (xs ++ ys) with
        | some k2 => some (k2 + 1)
        | none => if x = 0 then some 0 else none := rfl
    have step2 : lastZeroIdx (x :: xs) =
        match lastZeroIdx xs with
        | some k2 => some (k2 + 1)
        | none => if x = 0 then some 0 else none := rfl
    rw [List.cons_append, step, step2, ih]

theorem rowScan_eq (r : Nat) (row : List Nat) :
    ∀ (c0 : Nat) (bp : Nat × Nat),
      rowScan r c0 bp row =
        match lastZeroIdx row with
        | some k => (r, c0 + k)
        | none => bp := by
  induction row with
  | nil => intro c0 bp; simp [rowScan, lastZeroIdx]
  | cons v rest ih =>
    intro c0 bp
    simp only [rowScan, lastZeroIdx, ih]
    cases h : lastZeroIdx rest with
    | some k => simp [Nat.add_assoc, Nat.add_comm 1 k]
    | none =>
      by_cases hv : v = 0 <;> simp [hv]

theorem fromFlatScan_eq (size : Nat) (flat : List Nat)
    (hlen : flat.length = size * size) :
    ∀ k, k ≤ size →
      (List.range k).foldl
          (fun bp r => rowScan r 0 bp ((flat.drop (r * size)).take size)) (0, 0) =
        match lastZeroIdx (flat.take (k * size)) with
        | some i => (i / size, i % size)
        | none => (0, 0) := by
  intro k
  induction k with
  | zero => intro _; simp [lastZeroIdx]
  | succ k ih =>
    intro hk
    have hks : k ≤ size := Nat.le_of_succ_le hk
    have hsz : 0 < size := Nat.lt_of_lt_of_le (Nat.succ_pos k) hk
    rw [List.range_succ, List.foldl_append, List.foldl_cons, List.foldl_nil, ih hks]
    have htake : flat.take ((k + 1) * size) =
        flat.take (k * size) ++ ((flat.drop (k * size)).take size) := by
      rw [Nat.succ_mul, List.take_add]
    have hlentake : (flat.take (k * size)).length = k * size := by
      rw [List.length_take, hlen]
      exact Nat.min_eq_left (Nat.mul_le_mul_right size hks)
    rw [rowScan_eq, htake]
    cases hslice : lastZeroIdx ((flat.drop (k * size)).take size) with
    | some c =>
      have hc : c < size := by
        have h1 := lastZeroIdx_lt_length _ _ hslice
        have h2 : c < min size (flat.drop (k * size)).length := by
          simpa [List.length_take] using h1
        omega
      rw [lastZeroIdx_append_some _ _ _ hslice, hlentake]
      simp [Nat.mul_comm k size, Nat.mul_add_div hsz, Nat.mul_add_mod,
        Nat.div_eq_of_lt hc, Nat.mod_eq_of_lt hc]
    | none =>
      rw [lastZeroIdx_append_none _ _ hslice]

/-- C10 — `Board.from_flat` raises `ValueError` iff the flat list's
length differs from `size²`; when the length matches it never raises:
with no zero in the list the blank position is left at `(0, 0)`, and
in general (several zeros included) the blank position is that of the
last zero in row-major order. -/
theorem from_flat_spec :
    (∀ size flat, Board.from_flat size flat = .error .valueError ↔
      flat.length ≠ size * size) ∧
    (∀ size flat, flat.length = size * size →
      ∃ bd, Board.from_flat size flat = .ok bd) ∧
    (∀ size flat bd, Board.from_flat size flat = .ok bd →
      (∀ v ∈ flat, v ≠ 0) → bd.blank_pos = (0, 0)) ∧
    (∀ size flat bd i, Board.from_flat size flat = .ok bd →
      i < flat.length → flat.getD i 0 = 0 →
      (∀ j, i < j → j < flat.length → flat.getD j 0 ≠ 0) →
      bd.blank_pos = (i / size, i % size)) := by
  refine ⟨?_, ?_, ?_, ?_⟩
  · intro size flat
    constructor
    · intro h hlen
      simp [Board.from_flat, hlen] at h
    · intro hlen
      simp [Board.from_flat, hlen]
  · intro size flat hlen
    refine ⟨Board.mk size
      ((List.range size).map (fun r => (flat.drop (r * size)).take size))
      ((List.range size).foldl
        (fun bp r => rowScan r 0 bp ((flat.drop (r * size)).take size)) (0, 0)), ?_⟩
    simp [Board.from_flat, hlen]
  · intro size flat bd hok hnz
    have hlen : flat.length = size * size := by
      by_contra hlen
      simp [Board.from_flat, hlen] at hok
    unfold Board.from_flat at hok
    rw [if_neg (by simp [hlen])] at hok
    have hnone : lastZeroIdx (flat.take (size * size)) = none := by
      rw [lastZeroIdx_eq_none_iff]
      exact fun v hv => hnz v (List.mem_of_mem_take hv)
    have hscan := fromFlatScan_eq size flat hlen size (Nat.le_refl size)
    rw [hnone] at hscan
    injection hok with hok
    rw [← hok]
    exact hscan
  · intro size flat bd i hok hi hz hmax
    have hlen : flat.length = size * size := by
      by_contra hlen
      simp [Board.from_flat, hlen] at hok
    have hsome : lastZeroIdx flat = some i := lastZeroIdx_eq_some flat i hi hz hmax
    have htake : flat.take (size * size) = flat := by
      rw [← hlen]
      exact List.take_length flat
    have hscan := fromFlatScan_eq size flat hlen size (Nat.le_refl size)
    rw [htake, hsome] at hscan
    unfold Board.from_flat at hok
    rw [if_neg (by simp [hlen])] at hok
    injection hok with hok
    rw [← hok]
    exact hscan

/-- Witness for C10: a 2×2 flat list with two zeros — the blank lands
on the last zero, cell 2, i.e. position `(1, 0)`. -/
theorem from_flat_spec_witness :
    Board.from_flat 2 [0, 1, 0, 3] =
      .ok (Board.mk 2 [[0, 1], [0, 3]] (1, 0)) ∧
    (Board.mk 2 [[0, 1], [0, 3]] (1, 0)).blank_pos = (2 / 2, 2 % 2) := by
  constructor
  · rfl
  · refine from_flat_spec.2.2.2 2 [0, 1, 0, 3] _ 2 (by rfl) (by decide) (by decide) ?_
    intro j hj hjl
    have hl : j < 4 := by simpa using hjl
    have : j = 3 := by omega
    subst this
    decide


/-! ## C5: move semantics and solver emission agreement -/

theorem div_mod_of_eq (n q r x : Nat) (hn : 0 < n) (hr : r < n)
    (hx : x = n * q + r) : x / n = q ∧ x % n = r := by
  subst hx
  refine ⟨?_, ?_⟩
  · rw [Nat.mul_add_div hn, Nat.div_eq_of_lt hr, Nat.add_zero]
  · rw [Nat.mul_add_mod, Nat.mod_eq_of_lt hr]

theorem sw_ok_of_dm (st : BSt) (ni : Nat) (d : Direction)
    (hd : dmLookup st.n ((ni : Int) - (st.bi : Int)) = some d) :
    sw st ni = .ok (BSt.mk st.n ((st.g.set st.bi (st.g.getD ni 0)).set ni 0)
      ((st.p.set (st.g.getD ni 0) st.bi).set 0 ni) ni, d) := by
  unfold sw
  rw [hd]

/-- C5 — part 1: `GamePlay.move` succeeds exactly when the cell of
the sliding tile (blank plus the direction's offset: `UP` selects
`(br+1, bc)`, `DOWN` `(br-1, bc)`, `LEFT` `(br, bc+1)`, `RIGHT`
`(br, bc-1)`) is in bounds, in which case it swaps the blank with that
cell; otherwise the board is untouched.  Part 2: the solver's move
emission agrees — whenever `_B.sw` jumps to a grid neighbour `ni`, the
emitted direction is the one whose `GamePlay.move` offset carries the
blank to `ni`. -/
theorem move_semantics_and_emission :
    (∀ (b : Board) (d : Direction),
      ((GamePlay.move b d).1 = true ↔
        (0 ≤ (b.blank_pos.1 : Int) + (moveOffset d).1 ∧
         (b.blank_pos.1 : Int) + (moveOffset d).1 < (b.size : Int) ∧
         0 ≤ (b.blank_pos.2 : Int) + (moveOffset d).2 ∧
         (b.blank_pos.2 : Int) + (moveOffset d).2 < (b.size : Int))) ∧
      ((GamePlay.move b d).1 = true →
        (GamePlay.move b d).2 =
          gameSwap b (((b.blank_pos.1 : Int) + (moveOffset d).1).toNat,
            ((b.blank_pos.2 : Int) + (moveOffset d).2).toNat)) ∧
      ((GamePlay.move b d).1 = false → (GamePlay.move b d).2 = b)) ∧
    (∀ (st : BSt) (ni : Nat), st.bi < st.n * st.n → ni ∈ adjList st.n st.bi →
      ∃ st2 d, sw st ni = .ok (st2, d) ∧ st2.bi = ni ∧
        ((ni / st.n : Nat) : Int) = ((st.bi / st.n : Nat) : Int) + (moveOffset d).1 ∧
        ((ni % st.n : Nat) : Int) = ((st.bi % st.n : Nat) : Int) + (moveOffset d).2) := by
  constructor
  · intro b d
    refine ⟨?_, ?_, ?_⟩
    · by_cases h : (0 ≤ (b.blank_pos.1 : Int) + (moveOffset d).1 ∧
          (b.blank_pos.1 : Int) + (moveOffset d).1 < (b.size : Int) ∧
          0 ≤ (b.blank_pos.2 : Int) + (moveOffset d).2 ∧
          (b.blank_pos.2 : Int) + (moveOffset d).2 < (b.size : Int))
      · simp [GamePlay.move, h]
      · simp [GamePlay.move, h]
    · intro htrue
      by_cases h : (0 ≤ (b.blank_pos.1 : Int) + (moveOffset d).1 ∧
          (b.blank_pos.1 : Int) + (moveOffset d).1 < (b.size : Int) ∧
          0 ≤ (b.blank_pos.2 : Int) + (moveOffset d).2 ∧
          (b.blank_pos.2 : Int) + (moveOffset d).2 < (b.size : Int))
      · simp [GamePlay.move, h]
      · simp [GamePlay.move, h] at htrue
    · intro hfalse
      by_cases h : (0 ≤ (b.blank_pos.1 : Int) + (moveOffset d).1 ∧
          (b.blank_pos.1 : Int) + (moveOffset d).1 < (b.size : Int) ∧
          0 ≤ (b.blank_pos.2 : Int) + (moveOffset d).2 ∧
          (b.blank_pos.2 : Int) + (moveOffset d).2 < (b.size : Int))
      · simp [GamePlay.move, h] at hfalse
      · simp [GamePlay.move, h]
  · intro st ni hbi hmem
    have hn : 0 < st.n := by
      rcases Nat.eq_zero_or_pos st.n with h0 | h0
      · rw [h0] at hbi
        simp at hbi
      · exact h0
    have hqn : st.bi / st.n < st.n := (Nat.div_lt_iff_lt_mul hn).mpr hbi
    have hqr : st.n * (st.bi / st.n) + st.bi % st.n = st.bi := Nat.div_add_mod st.bi st.n
    have hrn : st.bi % st.n < st.n := Nat.mod_lt _ hn
    simp only [adjList, List.mem_append] at hmem
    rcases hmem with ((hmem | hmem) | hmem) | hmem
    · -- neighbour above: ni = bi - n, emitted DOWN
      by_cases hc : 0 < st.bi / st.n
      · rw [if_pos hc] at hmem
        simp at hmem
        subst hmem
        have hbn : st.n ≤ st.bi := by
          by_contra hlt
          push_neg at hlt
          have : st.bi / st.n = 0 := Nat.div_eq_of_lt hlt
          omega
        obtain ⟨qq, hq⟩ : ∃ qq, st.bi / st.n = qq + 1 :=
          ⟨st.bi / st.n - 1, by omega⟩
        have h1 : st.n * qq + st.n + st.bi % st.n = st.bi := by
          have h2 := hqr
          rw [hq, Nat.mul_add, Nat.mul_one] at h2
          omega
        have hni : st.bi - st.n = st.n * qq + st.bi % st.n := by omega
        have hdm := div_mod_of_eq st.n qq (st.bi % st.n) (st.bi - st.n) hn hrn hni
        have hn2 : 2 ≤ st.n := by omega
        have hdelta : ((st.bi - st.n : Nat) : Int) - (st.bi : Int) = -(st.n : Int) := by
          omega
        have hd : dmLookup st.n (((st.bi - st.n : Nat) : Int) - (st.bi : Int)) =
            some .down := by
          rw [hdelta]
          unfold dmLookup
          rw [if_neg (by omega), if_neg (by omega), if_pos rfl]
        refine ⟨_, _, sw_ok_of_dm st _ _ hd, rfl, ?_, ?_⟩
        · rw [hdm.1, hq]
          simp [moveOffset]
        · rw [hdm.2]
          simp [moveOffset]
      · rw [if_neg hc] at hmem
        simp at hmem
    · -- neighbour below: ni = bi + n, emitted UP
      by_cases hc : st.bi / st.n < st.n - 1
      · rw [if_pos hc] at hmem
        simp at hmem
        subst hmem
        have hni : st.bi + st.n = st.n * (st.bi / st.n + 1) + st.bi % st.n := by
          rw [Nat.mul_add, Nat.mul_one]
          omega
        have hdm := div_mod_of_eq st.n (st.bi / st.n + 1) (st.bi % st.n)
          (st.bi + st.n) hn hrn hni
        have hn2 : 2 ≤ st.n := by
          rcases Nat.lt_or_ge st.n 2 with h2 | h2
          · exfalso
            have h1 : st.n = 1 := by omega
            rw [h1] at hc
            omega
          · exact h2
        have hdelta : ((st.bi + st.n : Nat) : Int) - (st.bi : Int) = (st.n : Int) := by
          push_cast
          omega
        have hd : dmLookup st.n (((st.bi + st.n : Nat) : Int) - (st.bi : Int)) =
            some .up := by
          rw [hdelta]
          unfold dmLookup
          rw [if_neg (by omega), if_neg (by omega), if_neg (by omega), if_pos rfl]
        refine ⟨_, _, sw_ok_of_dm st _ _ hd, rfl, ?_, ?_⟩
        · rw [hdm.1]
          simp [moveOffset]
        · rw [hdm.2]
          simp [moveOffset]
      · rw [if_neg hc] at hmem
        simp at hmem
    · -- neighbour to the left: ni = bi - 1, emitted RIGHT
      by_cases hc : 0 < st.bi % st.n
      · rw [if_pos hc] at hmem
        simp at hmem
        subst hmem
        have hni : st.bi - 1 = st.n * (st.bi / st.n) + (st.bi % st.n - 1) := by
          omega
        have hdm := div_mod_of_eq st.n (st.bi / st.n) (st.bi % st.n - 1)
          (st.bi - 1) hn (by omega) hni
        have hdelta : ((st.bi - 1 : Nat) : Int) - (st.bi : Int) = -1 := by
          omega
        have hd : dmLookup st.n (((st.bi - 1 : Nat) : Int) - (st.bi : Int)) =
            some .right := by
          rw [hdelta]
          unfold dmLookup
          rw [if_pos rfl]
        refine ⟨_, _, sw_ok_of_dm st _ _ hd, rfl, ?_, ?_⟩
        · rw [hdm.1]
          simp [moveOffset]
        · rw [hdm.2]
          simp [moveOffset]
          omega
      · rw [if_neg hc] at hmem
        simp at hmem
    · -- neighbour to the right: ni = bi + 1, emitted LEFT
      by_cases hc : st.bi % st.n < st.n - 1
      · rw [if_pos hc] at hmem
        simp at hmem
        subst hmem
        have hni : st.bi + 1 = st.n * (st.bi / st.n) + (st.bi % st.n + 1) := by
          omega
        have hdm := div_mod_of_eq st.n (st.bi / st.n) (st.bi % st.n + 1)
          (st.bi + 1) hn (by omega) hni
        have hdelta : ((st.bi + 1 : Nat) : Int) - (st.bi : Int) = 1 := by
          push_cast
          omega
        have hd : dmLookup st.n (((st.bi + 1 : Nat) : Int) - (st.bi : Int)) =
            some .left := by
          rw [hdelta]
          unfold dmLookup
          rw [if_neg (by omega), if_pos rfl]
        refine ⟨_, _, sw_ok_of_dm st _ _ hd, rfl, ?_, ?_⟩
        · rw [hdm.1]
          simp [moveOffset]
        · rw [hdm.2]
          simp [moveOffset]
      · rw [if_neg hc] at hmem
        simp at hmem

/-- Witness for C5 at a concrete state: side 2, blank at cell 3, jump
to neighbour cell 1 (the cell above), which emits DOWN. -/
theorem move_semantics_and_emission_witness :
    ∃ st2 d, sw (BSt.mk 2 [1, 2, 3, 0] [3, 0, 1, 2] 3) 1 = .ok (st2, d) ∧
      st2.bi = 1 ∧
      ((1 / 2 : Nat) : Int) = ((3 / 2 : Nat) : Int) + (moveOffset d).1 ∧
      ((1 % 2 : Nat) : Int) = ((3 % 2 : Nat) : Int) + (moveOffset d).2 :=
  move_semantics_and_emission.2 (BSt.mk 2 [1, 2, 3, 0] [3, 0, 1, 2] 3) 1
    (by decide) (by decide)


/-! ## C8: grid-representation invariant under atomic moves -/

/-- C8 — every atomic move performed during a solve (a successful
`_B.sw` to a valid cell) preserves the grid invariant: afterwards the
mappings are still exact inverses, the moved-to cell holds the blank,
the cursor points at it, and it is the only cell holding value 0. -/
theorem sw_preserves_BInv (st : BSt) (ni : Nat) (hni : ni < st.n * st.n)
    (hinv : BInv st) (st2 : BSt) (d : Direction)
    (hsw : sw st ni = .ok (st2, d)) :
    BInv st2 ∧ st2.g.getD st2.bi 0 = 0 ∧
      (∀ j, j < st2.n * st2.n → st2.g.getD j 0 = 0 → j = st2.bi) := by
  obtain ⟨hgl, hpl, hbi, hg0, hrange, hinvr⟩ := hinv
  have hn : 0 < st.n := by
    rcases Nat.eq_zero_or_pos st.n with h0 | h0
    · rw [h0] at hbi
      simp at hbi
    · exact h0
  cases hdm : dmLookup st.n ((ni : Int) - (st.bi : Int)) with
  | none =>
    unfold sw at hsw
    rw [hdm] at hsw
    exact absurd hsw (by simp)
  | some d2 =>
    unfold sw at hsw
    rw [hdm] at hsw
    have hne : ni ≠ st.bi := by
      intro heq
      rw [heq] at hdm
      have hz : ((st.bi : Int) - st.bi) = 0 := by omega
      rw [hz] at hdm
      unfold dmLookup at hdm
      rw [if_neg (by omega), if_neg (by omega), if_neg (by omega),
        if_neg (by omega)] at hdm
      exact Option.noConfusion hdm
    injection hsw with hsw
    have hst2 : st2 = BSt.mk st.n ((st.g.set st.bi (st.g.getD ni 0)).set ni 0)
        ((st.p.set (st.g.getD ni 0) st.bi).set 0 ni) ni := by
      have := congrArg Prod.fst hsw
      simpa using this.symm
    subst hst2
    have htvp := hinvr ni hni
    have hbip := hinvr st.bi hbi
    rw [hg0] at hbip
    have htv0 : st.g.getD ni 0 ≠ 0 := by
      intro h0
      rw [h0] at htvp
      rw [hbip] at htvp
      exact hne htvp.symm
    have htvlt : st.g.getD ni 0 < st.n * st.n := hrange ni hni
    have hgl1 : ((st.g.set st.bi (st.g.getD ni 0)).set ni 0).length = st.n * st.n := by
      simp [hgl]
    have hpl1 : ((st.p.set (st.g.getD ni 0) st.bi).set 0 ni).length = st.n * st.n := by
      simp [hpl]
    have hnn0 : 0 < st.n * st.n := Nat.lt_of_le_of_lt (Nat.zero_le ni) hni
    -- the new cell→value reads
    have hg2ni : ((st.g.set st.bi (st.g.getD ni 0)).set ni 0).getD ni 0 = 0 := by
      apply getD_set_self
      rw [List.length_set, hgl]
      exact hni
    have hg2bi : ((st.g.set st.bi (st.g.getD ni 0)).set ni 0).getD st.bi 0 =
        st.g.getD ni 0 := by
      rw [getD_set_other (st.g.set st.bi (st.g.getD ni 0)) ni st.bi 0 0 hne]
      apply getD_set_self
      rw [hgl]
      exact hbi
    have hg2other : ∀ j, j ≠ ni → j ≠ st.bi →
        ((st.g.set st.bi (st.g.getD ni 0)).set ni 0).getD j 0 = st.g.getD j 0 := by
      intro j hjni hjbi
      rw [getD_set_other (st.g.set st.bi (st.g.getD ni 0)) ni j 0 0
        (fun h => hjni h.symm)]
      rw [getD_set_other st.g st.bi j (st.g.getD ni 0) 0 (fun h => hjbi h.symm)]
    -- the new value→position reads
    have hp2zero : ((st.p.set (st.g.getD ni 0) st.bi).set 0 ni).getD 0 0 = ni := by
      apply getD_set_self
      rw [List.length_set, hpl]
      exact hnn0
    have hp2tv : ((st.p.set (st.g.getD ni 0) st.bi).set 0 ni).getD
        (st.g.getD ni 0) 0 = st.bi := by
      rw [getD_set_other (st.p.set (st.g.getD ni 0) st.bi) 0 (st.g.getD ni 0) ni 0
        (fun h => htv0 h.symm)]
      apply getD_set_self
      rw [hpl]
      exact htvlt
    have hp2other : ∀ w, w ≠ 0 → w ≠ st.g.getD ni 0 →
        ((st.p.set (st.g.getD ni 0) st.bi).set 0 ni).getD w 0 = st.p.getD w 0 := by
      intro w hw0 hwtv
      rw [getD_set_other (st.p.set (st.g.getD ni 0) st.bi) 0 w ni 0
        (fun h => hw0 h.symm)]
      rw [getD_set_other st.p (st.g.getD ni 0) w st.bi 0 (fun h => hwtv h.symm)]
    have huniq : ∀ j, j < st.n * st.n →
        ((st.g.set st.bi (st.g.getD ni 0)).set ni 0).getD j 0 = 0 → j = ni := by
      intro j hj hjz
      by_cases hjni : j = ni
      · exact hjni
      · exfalso
        by_cases hjbi : j = st.bi
        · rw [hjbi, hg2bi] at hjz
          exact htv0 hjz
        · rw [hg2other j hjni hjbi] at hjz
          have := hinvr j hj
          rw [hjz, hbip] at this
          exact hjbi this.symm
    refine ⟨⟨hgl1, hpl1, hni, hg2ni, ?_, ?_⟩, hg2ni, ?_⟩
    · intro i hi
      by_cases hii : i = ni
      · rw [hii, hg2ni]
        exact hnn0
      · by_cases hib : i = st.bi
        · rw [hib, hg2bi]
          exact htvlt
        · rw [hg2other i hii hib]
          exact hrange i hi
    · intro i hi
      by_cases hii : i = ni
      · rw [hii, hg2ni, hp2zero]
      · by_cases hib : i = st.bi
        · rw [hib, hg2bi, hp2tv]
        · rw [hg2other i hii hib]
          have hw0 : st.g.getD i 0 ≠ 0 := by
            intro h0
            have := hinvr i hi
            rw [h0, hbip] at this
            exact hib this.symm
          have hwtv : st.g.getD i 0 ≠ st.g.getD ni 0 := by
            intro heqv
            have h1 := hinvr i hi
            rw [heqv, htvp] at h1
            exact hii h1.symm
          rw [hp2other _ hw0 hwtv]
          exact hinvr i hi
    · exact huniq

/-- Witness for C8 at a concrete state: the solved-but-for-blank 2×2
wrapper with the blank at cell 3, swapping with cell 1. -/
theorem sw_preserves_BInv_witness :
    BInv (BSt.mk 2 [1, 0, 3, 2] [1, 0, 3, 2] 1) ∧
      (BSt.mk 2 [1, 0, 3, 2] [1, 0, 3, 2] 1).g.getD 1 0 = 0 ∧
      (∀ j, j < 4 → (BSt.mk 2 [1, 0, 3, 2] [1, 0, 3, 2] 1).g.getD j 0 = 0 →
        j = 1) := by
  have h := sw_preserves_BInv (BSt.mk 2 [1, 2, 3, 0] [3, 0, 1, 2] 3) 1
    (by decide)
    (by unfold BInv; decide)
    (BSt.mk 2 [1, 0, 3, 2] [1, 0, 3, 2] 1) .down rfl
  exact ⟨h.1, h.2.1, fun j hj => h.2.2 j hj⟩


/-! ## C2: is_solvable computes the inversion-parity predicate -/

theorem countGeAll_cons (seen : List Nat) (v : Nat) (rest : List Nat) :
    countGeAll seen (v :: rest) =
      seen.countP (fun s => decide (v ≤ s)) + countGeAll seen rest := by
  simp [countGeAll]

theorem countGeAll_nil_seen (l : List Nat) : countGeAll [] l = 0 := by
  induction l with
  | nil => rfl
  | cons v rest ih =>
    rw [countGeAll_cons, ih]
    simp

theorem bisect_left_sorted (seen : List Nat) (v : Nat)
    (hs : seen.Sorted (fun a b => a ≤ b)) :
    seen.length - bisect_left seen v = seen.countP (fun s => decide (v ≤ s)) := by
  induction seen with
  | nil => simp [bisect_left]
  | cons s rest ih =>
    have hrs : rest.Sorted (fun a b => a ≤ b) := (List.sorted_cons.mp hs).2
    have hall : ∀ x ∈ rest, s ≤ x := (List.sorted_cons.mp hs).1
    by_cases hlt : s < v
    · have hbl : bisect_left (s :: rest) v = bisect_left rest v + 1 := by
        unfold bisect_left
        rw [List.takeWhile_cons, if_pos (by simpa using hlt)]
        simp [Nat.add_comm]
      have hcp : (s :: rest).countP (fun x => decide (v ≤ x)) =
          rest.countP (fun x => decide (v ≤ x)) := by
        rw [List.countP_cons]
        simp [Nat.not_le.mpr hlt]
      rw [hbl, hcp, List.length_cons, ← ih hrs]
      have hble : bisect_left rest v ≤ rest.length := by
        unfold bisect_left
        exact (List.takeWhile_sublist _).length_le
      omega
    · have hvs : v ≤ s := Nat.le_of_not_lt hlt
      have hbl : bisect_left (s :: rest) v = 0 := by
        unfold bisect_left
        rw [List.takeWhile_cons, if_neg (by simpa using hlt)]
        rfl
      have hcp : (s :: rest).countP (fun x => decide (v ≤ x)) =
          rest.length + 1 := by
        rw [List.countP_cons]
        rw [List.countP_eq_length.mpr
          (fun x hx => by simpa using Nat.le_trans hvs (hall x hx))]
        simp [hvs]
      rw [hbl, hcp, List.length_cons]
      omega

theorem countP_insort (seen : List Nat) (v : Nat) (p : Nat → Bool) :
    (insort seen v).countP p = seen.countP p + (if p v then 1 else 0) := by
  unfold insort
  rw [(List.perm_orderedInsert (fun a b => a ≤ b) v seen).countP_eq p]
  rw [List.countP_cons]

theorem sorted_insort (seen : List Nat) (v : Nat)
    (hs : seen.Sorted (fun a b => a ≤ b)) :
    (insort seen v).Sorted (fun a b => a ≤ b) := by
  unfold insort
  exact hs.orderedInsert v seen

theorem countGeAll_insort (seen : List Nat) (v : Nat) (rest : List Nat) :
    countGeAll (insort seen v) rest =
      countGeAll seen rest + rest.countP (fun w => decide (w ≤ v)) := by
  induction rest with
  | nil => simp [countGeAll]
  | cons w ws ih =>
    rw [countGeAll_cons, countGeAll_cons, countP_insort, List.countP_cons, ih]
    omega

theorem invLoop_eq (l : List Nat) : ∀ seen inv, seen.Sorted (fun a b => a ≤ b) →
    invLoop l seen inv = inv + countGeAll seen l + invGe l := by
  induction l with
  | nil =>
    intro seen inv _
    simp [invLoop, countGeAll, invGe]
  | cons v rest ih =>
    intro seen inv hs
    rw [invLoop, ih (insort seen v) _ (sorted_insort seen v hs),
      bisect_left_sorted seen v hs, countGeAll_insort, countGeAll_cons, invGe]
    omega

theorem invGe_eq_specInversions (l : List Nat) (h : l.Nodup) :
    invGe l = specInversions l := by
  induction l with
  | nil => rfl
  | cons x xs ih =>
    have hx : x ∉ xs := (List.nodup_cons.mp h).1
    have hxs : xs.Nodup := (List.nodup_cons.mp h).2
    rw [invGe, specInversions, ih hxs]
    congr 1
    apply List.countP_congr
    intro y hy
    have hne : y ≠ x := fun heq => hx (heq ▸ hy)
    by_cases hle : y ≤ x
    · have hlt : y < x := Nat.lt_of_le_of_ne hle hne
      simp [hle, hlt]
    · have hnlt : ¬ y < x := fun hlt => hle (Nat.le_of_lt hlt)
      simp [hle, hnlt]

/-- C2 — on every board whose (blank-removed, row-major) tile values
are pairwise distinct, `is_solvable` computes exactly the claimed
parity predicate: inversion-pair parity for odd `N`, and
`(inversions + (N - 1 - blank_row)) % 2 == 0` for even `N`.  The
embedding is a pure function of the board, mirroring the source's
freedom from side effects. -/
theorem is_solvable_eq_parity_spec (b : Board)
    (hnd : ((b.tiles.flatten).filter (fun v => v != 0)).Nodup) :
    Solver.is_solvable b = specSolvable b := by
  unfold Solver.is_solvable specSolvable
  simp only [invLoop_eq _ [] 0 List.sorted_nil, countGeAll_nil_seen,
    invGe_eq_specInversions _ hnd, Nat.zero_add, Nat.add_zero]

/-- Witness for C2 at the spec's first concrete scenario, the 3×3
board one slide away from the goal. -/
theorem is_solvable_eq_parity_spec_witness :
    Solver.is_solvable (Board.mk 3 [[1, 2, 3], [4, 5, 6], [7, 0, 8]] (2, 1)) =
      specSolvable (Board.mk 3 [[1, 2, 3], [4, 5, 6], [7, 0, 8]] (2, 1)) :=
  is_solvable_eq_parity_spec _ (by decide)


/-! ## C6: the 2×2 endgame resolver -/

theorem dm_some_of_delta (n : Nat) (x : Int)
    (h : x = -1 ∨ x = 1 ∨ x = -(n : Int) ∨ x = (n : Int)) :
    ∃ d, dmLookup n x = some d := by
  unfold dmLookup
  by_cases c1 : x = -1
  · rw [if_pos c1]
    exact ⟨_, rfl⟩
  · rw [if_neg c1]
    by_cases c2 : x = 1
    · rw [if_pos c2]
      exact ⟨_, rfl⟩
    · rw [if_neg c2]
      by_cases c3 : x = -(n : Int)
      · rw [if_pos c3]
        exact ⟨_, rfl⟩
      · rw [if_neg c3]
        by_cases c4 : x = (n : Int)
        · rw [if_pos c4]
          exact ⟨_, rfl⟩
        · rcases h with h | h | h | h
          · exact absurd h c1
          · exact absurd h c2
          · exact absurd h c3
          · exact absurd h c4

theorem sw_ok_bi_n (st : BSt) (ni : Nat) (d : Direction)
    (hd : dmLookup st.n ((ni : Int) - (st.bi : Int)) = some d) :
    ∃ st2, sw st ni = .ok (st2, d) ∧ st2.bi = ni ∧ st2.n = st.n :=
  ⟨_, sw_ok_of_dm st ni d hd, rfl, rfl⟩

/-- One clockwise quarter-rotation of the 2×2 block (the four `sw`
slides of `_solve_2x2`) always succeeds when the blank starts at the
bottom-right cell, returning it there. -/
theorem rotSeq_ok (tl n : Nat) (st : BSt) (fz : List Bool)
    (hstn : st.n = n) (hbi : st.bi = tl + n + 1) :
    ∃ st2 mv, swSeq [tl + n, tl, tl + 1, tl + n + 1] st fz =
      .ok (st2, fz, mv) ∧ st2.bi = tl + n + 1 ∧ st2.n = n ∧
      mv.length = 4 := by
  obtain ⟨d1, hdm1⟩ := dm_some_of_delta st.n (((tl + n : Nat) : Int) - (st.bi : Int))
    (by left; rw [hbi]; omega)
  obtain ⟨st1, hsw1, hbi1, hn1⟩ := sw_ok_bi_n st (tl + n) d1 hdm1
  obtain ⟨d2, hdm2⟩ := dm_some_of_delta st1.n ((tl : Int) - (st1.bi : Int))
    (by right; right; left; rw [hbi1, hn1, hstn]; omega)
  obtain ⟨st2, hsw2, hbi2, hn2⟩ := sw_ok_bi_n st1 tl d2 hdm2
  obtain ⟨d3, hdm3⟩ := dm_some_of_delta st2.n (((tl + 1 : Nat) : Int) - (st2.bi : Int))
    (by right; left; rw [hbi2]; omega)
  obtain ⟨st3, hsw3, hbi3, hn3⟩ := sw_ok_bi_n st2 (tl + 1) d3 hdm3
  obtain ⟨d4, hdm4⟩ := dm_some_of_delta st3.n
    (((tl + n + 1 : Nat) : Int) - (st3.bi : Int))
    (by right; right; right; rw [hbi3, hn3, hn2, hn1, hstn]; omega)
  obtain ⟨st4, hsw4, hbi4, hn4⟩ := sw_ok_bi_n st3 (tl + n + 1) d4 hdm4
  refine ⟨st4, [d1, d2, d3, d4], ?_, hbi4, by rw [hn4, hn3, hn2, hn1, hstn], rfl⟩
  simp only [swSeq, swS, andThen, hsw1, hsw2, hsw3, hsw4]
  simp

/-- The rotation loop of `_solve_2x2` never raises: from a blank at
the bottom-right cell it returns normally within `k` rotations of 4
slides each. -/
theorem rot2Rounds_ok (tl n : Nat) : ∀ (k : Nat) (st : BSt) (fz : List Bool),
    st.n = n → st.bi = tl + n + 1 →
    ∃ st2 fz2 mv, rot2Rounds tl (tl + 1) (tl + n) (tl + n + 1) k st fz =
      .ok (st2, fz2, mv) ∧ mv.length ≤ 4 * k := by
  intro k
  induction k with
  | zero =>
    intro st fz _ _
    exact ⟨st, fz, [], rfl, by simp⟩
  | succ k ih =>
    intro st fz hstn hbi
    by_cases hm : (st.g.getD tl 0 = tl + 1 ∧ st.g.getD (tl + 1) 0 = tl + 1 + 1 ∧
        st.g.getD (tl + n) 0 = tl + n + 1)
    · refine ⟨st, fz, [], ?_, by simp⟩
      simp only [rot2Rounds]
      rw [if_pos hm]
    · obtain ⟨stA, mv4, hseq, hbiA, hnA, hlen⟩ := rotSeq_ok tl n st fz hstn hbi
      obtain ⟨st2, fz2, mv2, hrec, hlen2⟩ := ih stA fz hnA hbiA
      refine ⟨st2, fz2, mv4 ++ mv2, ?_, by simp [hlen]; omega⟩
      simp only [rot2Rounds]
      rw [if_neg hm]
      simp only [hseq, hrec]

/-- C6 (amended) — `_solve_2x2` checks the block before routing and
returns immediately with no moves when it already matches; the
rotation loop checks before each of its at most two rotations (4
slides each, never more than 8 slide moves) and never raises; in
particular after the second rotation it returns unconditionally,
without a further check and without any error at the bound. -/
theorem solve_2x2_behavior (off : Nat) (st : BSt) (fz : List Bool) :
    (st.g.getD (off * st.n + off) 0 = off * st.n + off + 1 ∧
      st.g.getD (off * st.n + off + 1) 0 = off * st.n + off + 1 + 1 ∧
      st.g.getD (off * st.n + off + st.n) 0 = off * st.n + off + st.n + 1 →
        solve2x2 off st fz = .ok (st, fz, [])) ∧
    (∀ st1 fz1, st1.n = st.n → st1.bi = off * st.n + off + st.n + 1 →
      ∃ st2 fz2 mv,
        rot2Rounds (off * st.n + off) (off * st.n + off + 1)
            (off * st.n + off + st.n) (off * st.n + off + st.n + 1) 2 st1 fz1 =
          .ok (st2, fz2, mv) ∧ mv.length ≤ 8) ∧
    (∀ st1 fz1,
      rot2Rounds (off * st.n + off) (off * st.n + off + 1)
          (off * st.n + off + st.n) (off * st.n + off + st.n + 1) 0 st1 fz1 =
        .ok (st1, fz1, [])) := by
  refine ⟨?_, ?_, ?_⟩
  · intro hm
    simp only [solve2x2]
    rw [if_pos hm]
  · intro st1 fz1 hn1 hbi1
    obtain ⟨st2, fz2, mv, hrot, hlen⟩ :=
      rot2Rounds_ok (off * st.n + off) st.n 2 st1 fz1 hn1 hbi1
    exact ⟨st2, fz2, mv, hrot, by omega⟩
  · intro st1 fz1
    rfl

/-- Witness for C6's amended theorem: the already-solved 2×2 block is
returned untouched with no moves, and the zero-rotation loop returns
unconditionally. -/
theorem solve_2x2_behavior_witness :
    solve2x2 0 (BSt.mk 2 [1, 2, 3, 0] [3, 0, 1, 2] 3) (List.replicate 4 false) =
      .ok (BSt.mk 2 [1, 2, 3, 0] [3, 0, 1, 2] 3, List.replicate 4 false, []) ∧
    rot2Rounds 0 1 2 3 0 (BSt.mk 2 [3, 2, 1, 0] [3, 2, 1, 0] 3)
        (List.replicate 4 false) =
      .ok (BSt.mk 2 [3, 2, 1, 0] [3, 2, 1, 0] 3, List.replicate 4 false, []) :=
  ⟨(solve_2x2_behavior 0 (BSt.mk 2 [1, 2, 3, 0] [3, 0, 1, 2] 3)
      (List.replicate 4 false)).1 (by decide),
    (solve_2x2_behavior 0 (BSt.mk 2 [3, 2, 1, 0] [3, 2, 1, 0] 3)
      (List.replicate 4 false)).2.2 (BSt.mk 2 [3, 2, 1, 0] [3, 2, 1, 0] 3)
      (List.replicate 4 false)⟩

/-- C6 counterexample — on the unsolvable 2×2 block `[[2,1],[3,0]]`
the endgame resolver spends both rotations without the block ever
matching the goal and then returns normally (`ok`, with the 8 slide
moves and the block left at `[3,2,1,0]`): reaching the two-rotation
bound does NOT raise a hard internal error as the claim states. -/
theorem solve_2x2_counterexample :
    solve2x2 0 (mkB (Board.mk 2 [[2, 1], [3, 0]] (1, 1))) (List.replicate 4 false) =
      .ok (BSt.mk 2 [3, 2, 1, 0] [3, 2, 1, 0] 3, List.replicate 4 false,
        [.right, .down, .left, .up, .right, .down, .left, .up]) ∧
    ¬((BSt.mk 2 [3, 2, 1, 0] [3, 2, 1, 0] 3).g.getD 0 0 = 0 + 1 ∧
      (BSt.mk 2 [3, 2, 1, 0] [3, 2, 1, 0] 3).g.getD 1 0 = 1 + 1 ∧
      (BSt.mk 2 [3, 2, 1, 0] [3, 2, 1, 0] 3).g.getD 2 0 = 2 + 1) :=
  ⟨rfl, by decide⟩


/-! ## C7: snapshot/rollback atomicity of the last-two-tile hook -/

/-- C7 — each `_last2_row` attempt is atomic with respect to failure.
The state `(st, fz)` this loop iteration receives is exactly Python's
pre-attempt snapshot (`snap = b.snap()`, `fz_snap = bytes(fz)`); the
first two conjuncts say that on a failed attempt — a caught exception
(which in the embedding carries the state as mutated at the raise), or
a completed maneuver whose placement check fails — the retry tail runs
from precisely that snapshot, the attempt's mutations being discarded
(`b.restore(snap)`, `fz[:] = fz_snap`).  The third conjunct is the
successful exit (with the mask likewise restored); the fourth is the
hard internal error naming the strip `(r, last)` when the attempt list
is exhausted; the fifth says a non-placed entry runs exactly 4
attempts. -/
theorem last2_row_atomicity (r last va vb a : Nat) (rest : List Nat)
    (st : BSt) (fz : List Bool) :
    (∀ e st2 fz2, last2RowBody r last va vb st fz = .error (e, st2, fz2) →
      e.caughtByLast2 = true →
      last2RowLoop r last va vb (a :: rest) st fz =
        last2RowRetry r last va vb a rest st fz) ∧
    (∀ st2 fz2 trial, last2RowBody r last va vb st fz = .ok (st2, fz2, trial) →
      ¬(st2.p.getD va 0 = r * st.n + last - 1 ∧
        st2.p.getD vb 0 = r * st.n + last) →
      last2RowLoop r last va vb (a :: rest) st fz =
        last2RowRetry r last va vb a rest st fz) ∧
    (∀ st2 fz2 trial, last2RowBody r last va vb st fz = .ok (st2, fz2, trial) →
      st2.p.getD va 0 = r * st.n + last - 1 → st2.p.getD vb 0 = r * st.n + last →
      last2RowLoop r last va vb (a :: rest) st fz = .ok (st2, fz, trial)) ∧
    (last2RowLoop r last va vb [] st fz =
      .error (.last2RowExhausted r last, st, fz)) ∧
    (¬(st.p.getD va 0 = r * st.n + last - 1 ∧
        st.p.getD vb 0 = r * st.n + last) →
      last2Row r last va vb st fz =
        last2RowLoop r last va vb [0, 1, 2, 3] st fz) := by
  refine ⟨?_, ?_, ?_, rfl, ?_⟩
  · intro e st2 fz2 hbody hcaught
    simp only [last2RowLoop, hbody, hcaught]
    simp only [last2RowRetry, if_true]
  · intro st2 fz2 trial hbody hnp
    simp only [last2RowLoop, hbody]
    rw [if_neg hnp]
    simp only [last2RowRetry]
  · intro st2 fz2 trial hbody hpa hpb
    simp only [last2RowLoop, hbody]
    rw [if_pos ⟨hpa, hpb⟩]
  · intro hnp
    simp only [last2Row]
    rw [if_neg hnp]

/-- Witness for C7: with every cell frozen, the park step of the
maneuver body raises `RuntimeError` (`_mto stuck`) at once — a caught
failure — and the loop indeed continues with the pre-attempt state. -/
theorem last2_row_atomicity_witness :
    last2RowBody 0 2 2 3
        (BSt.mk 3 [3, 1, 2, 4, 5, 6, 7, 8, 0] [8, 1, 2, 0, 3, 4, 5, 6, 7] 8)
        (List.replicate 9 true) =
      .error (.mtoStuck 3 0 8,
        BSt.mk 3 [3, 1, 2, 4, 5, 6, 7, 8, 0] [8, 1, 2, 0, 3, 4, 5, 6, 7] 8,
        List.replicate 9 true) ∧
    last2RowLoop 0 2 2 3 [0]
        (BSt.mk 3 [3, 1, 2, 4, 5, 6, 7, 8, 0] [8, 1, 2, 0, 3, 4, 5, 6, 7] 8)
        (List.replicate 9 true) =
      last2RowRetry 0 2 2 3 0 []
        (BSt.mk 3 [3, 1, 2, 4, 5, 6, 7, 8, 0] [8, 1, 2, 0, 3, 4, 5, 6, 7] 8)
        (List.replicate 9 true) :=
  ⟨rfl,
    (last2_row_atomicity 0 2 2 3 0 []
      (BSt.mk 3 [3, 1, 2, 4, 5, 6, 7, 8, 0] [8, 1, 2, 0, 3, 4, 5, 6, 7] 8)
      (List.replicate 9 true)).1 _ _ _ rfl rfl⟩


/-! ## C9: the tile pusher's iteration bound -/

theorem andThen_ok (x : SR) (f : BSt → List Bool → SR) (st2 : BSt)
    (fz2 : List Bool) (mv : List Direction)
    (h : andThen x f = .ok (st2, fz2, mv)) :
    ∃ st1 fz1 m1 m2, x = .ok (st1, fz1, m1) ∧ f st1 fz1 = .ok (st2, fz2, m2) ∧
      mv = m1 ++ m2 := by
  cases x with
  | error e => simp [andThen] at h
  | ok y =>
    obtain ⟨st1, fz1, m1⟩ := y
    cases hf : f st1 fz1 with
    | error e =>
      rw [andThen, hf] at h
      simp at h
    | ok z =>
      obtain ⟨st4, fz4, m2⟩ := z
      rw [andThen, hf] at h
      simp at h
      obtain ⟨h1, h2, h3⟩ := h
      exact ⟨st1, fz1, m1, m2, rfl, by rw [hf, h1, h2], h3.symm⟩

set_option maxHeartbeats 2000000 in
/-- C9 (amended) — the tile pusher is its bounded loop with exactly
`4·n²` iterations of fuel; whenever it returns normally the designated
tile occupies the target cell; and exhausting the iteration bound
raises the hard internal error `_mto max iterations`, which identifies
the stuck tile's value `v` and its target `gi` (errors propagated from
the blank router identify the blank and its routing target instead;
they are not of this form). -/
theorem mto_bounded (v gi : Nat) :
    (∀ st fz, mto v gi st fz = mtoLoop v gi (4 * (st.n * st.n)) st fz) ∧
    (∀ fuel st fz st2 fz2 mv, mtoLoop v gi fuel st fz = .ok (st2, fz2, mv) →
      st2.p.getD v 0 = gi) ∧
    (∀ st fz, mtoLoop v gi 0 st fz = .error (.mtoMaxIter v gi, st, fz)) := by
  refine ⟨fun st fz => rfl, ?_, fun st fz => rfl⟩
  intro fuel
  induction fuel with
  | zero =>
    intro st fz st2 fz2 mv h
    simp [mtoLoop] at h
  | succ fuel ih =>
    intro st fz st2 fz2 mv h
    simp only [mtoLoop] at h
    split at h
    · rename_i hcond
      simp at h
      obtain ⟨h1, -, -⟩ := h
      rw [← h1]
      simpa using hcond
    · repeat' split at h
      all_goals
        first
          | exact Except.noConfusion h
          | (obtain ⟨stA, fzA, m1, m2, hx, hrec, hmv⟩ := andThen_ok _ _ _ _ _ h
             exact ih stA fzA st2 fz2 m2 hrec)

/-- Witness for C9's amended theorem: a pusher call whose tile already
sits on the target returns at once, and the tile is indeed there. -/
theorem mto_bounded_witness :
    (BSt.mk 2 [1, 2, 3, 0] [3, 0, 1, 2] 3).p.getD 1 0 = 0 :=
  (mto_bounded 1 0).2.1 1 (BSt.mk 2 [1, 2, 3, 0] [3, 0, 1, 2] 3)
    (List.replicate 4 false) (BSt.mk 2 [1, 2, 3, 0] [3, 0, 1, 2] 3)
    (List.replicate 4 false) [] rfl

/-- C9 counterexample — a pusher call (tile 5 towards cell 2 on a 3×3
grid whose frozen mask walls the blank in) that neither returns with
the tile at the target nor raises an error identifying the stuck tile
and its target: the propagated blank-router error `_bto: no path`
identifies the blank's cell (0) and its routing target (5) instead. -/
theorem mto_counterexample :
    mto 5 2 (BSt.mk 3 [0, 1, 2, 3, 5, 4, 6, 7, 8] [0, 1, 2, 3, 5, 4, 6, 7, 8] 0)
        (((List.replicate 9 false).set 1 true).set 3 true) =
      .error (.btoNoPath 0 5,
        BSt.mk 3 [0, 1, 2, 3, 5, 4, 6, 7, 8] [0, 1, 2, 3, 5, 4, 6, 7, 8] 0,
        ((((List.replicate 9 false).set 1 true).set 3 true).set 4 true)) ∧
    mentionsTileTarget (.btoNoPath 0 5) 5 2 = false :=
  ⟨rfl, rfl⟩


/-! ## C3: hint behaviour -/

/-- C3 (amended) — `hint` returns `None` on a solved or unsolvable
board and the first move of `solve` whenever `solve` succeeds with a
non-empty sequence; but the `try/except` around the solve call catches
only `NotImplementedError`, so any other error raised by the solve
path (in particular every internal `RuntimeError`) propagates to the
caller instead of being swallowed. -/
theorem hint_behavior (b : Board) :
    (b.is_solved = true → Solver.hint b = .ok none) ∧
    (Solver.is_solvable b = false → Solver.hint b = .ok none) ∧
    (∀ m ms, Solver.solve b = .ok (m :: ms) → Solver.hint b = .ok (some m)) ∧
    (∀ e, Solver.solve b = .error e → e ≠ .notImplementedError →
      Solver.hint b = .error e) := by
  refine ⟨?_, ?_, ?_, ?_⟩
  · intro h
    simp [Solver.hint, h]
  · intro h
    by_cases hs : b.is_solved
    · simp [Solver.hint, hs]
    · have hsolve : Solver.solve b = .ok [] := by
        simp [Solver.solve, hs, h]
      simp [Solver.hint, hs, hsolve]
  · intro m ms hsolve
    have hs : ¬ b.is_solved = true := by
      intro hs
      simp [Solver.solve, hs] at hsolve
    simp [Solver.hint, hs, hsolve]
  · intro e hsolve hne
    have hs : ¬ b.is_solved = true := by
      intro hs
      simp [Solver.solve, hs] at hsolve
    cases e <;> first
      | exact absurd rfl hne
      | simp [Solver.hint, hs, hsolve]

/-- Witness for C3's amended theorem: on the one-slide-from-goal 3×3
board, `solve` returns the single move LEFT and `hint` returns it. -/
theorem hint_behavior_witness :
    Solver.hint (Board.mk 3 [[1, 2, 3], [4, 5, 6], [7, 0, 8]] (2, 1)) =
      .ok (some .left) :=
  (hint_behavior (Board.mk 3 [[1, 2, 3], [4, 5, 6], [7, 0, 8]] (2, 1))).2.2.1
    .left [] rfl

/-- C3 counterexample — a board built by `from_flat` from a flat list
with exactly one zero (tile 8 duplicated, tile 1 missing) passes the
parity gate, makes the solve path raise the internal `RuntimeError`
from `_last2_col` retry exhaustion, and `hint` — whose `except` clause
catches only `NotImplementedError` — propagates that error to the
caller instead of returning `None` as the claim states. -/
theorem hint_counterexample :
    Board.from_flat 3 [2, 8, 3, 4, 5, 6, 7, 8, 0] =
      .ok (Board.mk 3 [[2, 8, 3], [4, 5, 6], [7, 8, 0]] (2, 2)) ∧
    Solver.solve (Board.mk 3 [[2, 8, 3], [4, 5, 6], [7, 8, 0]] (2, 2)) =
      .error (.last2ColExhausted 0 2) ∧
    Solver.hint (Board.mk 3 [[2, 8, 3], [4, 5, 6], [7, 8, 0]] (2, 2)) =
      .error (.last2ColExhausted 0 2) :=
  ⟨rfl, rfl, rfl⟩

end SlidingGame
